import Mathlib

/-!
Shallow embedding of the publication-scheduling logic of
`src/bot.py` (telegram-publisher-bot), together with proofs of the
specified properties.

The embedded pieces are:

* `_find_next_available_date` (bot.py lines 223-252): wall-clock
  datetimes in the Europe/London reference timezone are modelled by
  `LocalDT`, a calendar day counter plus time-of-day fields.  Python's
  `datetime + timedelta(days=1)` performs naive wall-clock arithmetic on
  an aware datetime (the calendar date advances by exactly one day and
  the time-of-day fields are unchanged), `.replace(hour=6, minute=3,
  second=0, microsecond=0)` overwrites the time-of-day fields, and
  `.date()` projects the calendar date; `addDays`, `replaceTime` and
  `dateOf` model these.
* `_get_scheduled_posts` (lines 196-221) and the per-record date
  parsing inside `_find_next_available_date` (lines 237-245): the HTTP
  response is modelled by `FetchOutcome` (an exception, or a status
  code with a decoded body), and each post record by the outcome of
  parsing its `date_gmt` field into a Europe/London calendar date
  (`Option Nat`: `none` = missing key or unparseable value).
* `_format_qloga_mentions` (lines 64-73): `re.sub` with the literal
  case-insensitive pattern `qloga` scans left to right, replacing each
  non-overlapping match by the fixed hyperlink; `formatQlogaMentions`
  implements that scan on `List Char`.
* the title/subtitle truncation of `generate_article` (lines 132-141)
  and the double slot-resolution of `publish_to_wordpress` /
  `handle_topic` (lines 312-317 and 369-375).
-/

/-- A timezone-aware Python datetime, viewed through its wall-clock
fields in the Europe/London reference timezone: `day` is the calendar
date (days since an arbitrary epoch), the rest are the time-of-day
fields. -/
structure LocalDT where
  day : Nat
  hour : Nat
  minute : Nat
  second : Nat
  micro : Nat
  deriving Repr, DecidableEq

/-- Model of `dt + timedelta(days=n)`: Python's datetime arithmetic on
the wall-clock fields advances the calendar date and keeps the time of
day. -/
def addDays (dt : LocalDT) (n : Nat) : LocalDT :=
  { dt with day := dt.day + n }

/-- Model of `dt.replace(hour=h, minute=m, second=s, microsecond=us)`. -/
def replaceTime (dt : LocalDT) (h m s us : Nat) : LocalDT :=
  { dt with hour := h, minute := m, second := s, micro := us }

/-- Model of `dt.date()`: the calendar date in the reference timezone. -/
def dateOf (dt : LocalDT) : Nat :=
  dt.day

/-- Measure for the collision-avoidance loop: the number of distinct
scheduled dates not yet passed by the candidate. -/
def remainingDates (scheduledDates : List Nat) (d : Nat) : Nat :=
  (scheduledDates.toFinset.filter (fun x => d ≤ x)).card

/-- Model of the `while check_date.date() in scheduled_dates` loop of
`_find_next_available_date` (bot.py lines 248-250): while the
candidate's date is reserved, advance by one day and re-apply the
fixed 06:03:00.000000 time of day. -/
def findLoop (scheduledDates : List Nat) (c : LocalDT) : LocalDT :=
  if dateOf c ∈ scheduledDates then
    findLoop scheduledDates (replaceTime (addDays c 1) 6 3 0 0)
  else
    c
termination_by remainingDates scheduledDates c.day
decreasing_by
  simp only [replaceTime, addDays, remainingDates]
  apply Finset.card_lt_card
  rw [Finset.ssubset_iff_of_subset]
  · refine ⟨c.day, ?_, ?_⟩
    · simp only [Finset.mem_filter, List.mem_toFinset]
      exact ⟨by assumption, Nat.le_refl _⟩
    · simp
  · intro x hx
    simp only [Finset.mem_filter] at hx ⊢
    exact ⟨hx.1, Nat.le_of_succ_le hx.2⟩

/-- The same loop, instrumented with the number of membership tests
(`check_date.date() in scheduled_dates`) it performs, the final test
that exits the loop included. -/
def findLoopCount (scheduledDates : List Nat) (c : LocalDT) : LocalDT × Nat :=
  if dateOf c ∈ scheduledDates then
    let r := findLoopCount scheduledDates (replaceTime (addDays c 1) 6 3 0 0)
    (r.1, r.2 + 1)
  else
    (c, 1)
termination_by remainingDates scheduledDates c.day
decreasing_by
  simp only [replaceTime, addDays, remainingDates]
  apply Finset.card_lt_card
  rw [Finset.ssubset_iff_of_subset]
  · refine ⟨c.day, ?_, ?_⟩
    · simp only [Finset.mem_filter, List.mem_toFinset]
      exact ⟨by assumption, Nat.le_refl _⟩
    · simp
  · intro x hx
    simp only [Finset.mem_filter] at hx ⊢
    exact ⟨hx.1, Nat.le_of_succ_le hx.2⟩

/-- The same loop, instrumented with the list of candidate timestamps
it examines, the returned one included. -/
def findLoopTrace (scheduledDates : List Nat) (c : LocalDT) : List LocalDT :=
  if dateOf c ∈ scheduledDates then
    c :: findLoopTrace scheduledDates (replaceTime (addDays c 1) 6 3 0 0)
  else
    [c]
termination_by remainingDates scheduledDates c.day
decreasing_by
  simp only [replaceTime, addDays, remainingDates]
  apply Finset.card_lt_card
  rw [Finset.ssubset_iff_of_subset]
  · refine ⟨c.day, ?_, ?_⟩
    · simp only [Finset.mem_filter, List.mem_toFinset]
      exact ⟨by assumption, Nat.le_refl _⟩
    · simp
  · intro x hx
    simp only [Finset.mem_filter] at hx ⊢
    exact ⟨hx.1, Nat.le_of_succ_le hx.2⟩

/-- Outcome of the record-level `date_gmt` parsing in
`_find_next_available_date` (lines 238-245): `some d` when
`datetime.fromisoformat` succeeds and the converted Europe/London
calendar date is `d`, `none` when the key is missing (`KeyError`) or the
value unparseable (`ValueError`), in which case the record is skipped. -/
abbrev PostRecord := Option Nat

/-- Outcome of the `requests.get` call in `_get_scheduled_posts`
(lines 205-218): either the call raised, or it returned a status code
together with the decoded list of post records. -/
inductive FetchOutcome where
  | exn : FetchOutcome
  | resp : Nat → List PostRecord → FetchOutcome

/-- Model of `_get_scheduled_posts` (bot.py lines 196-221): on an
exception or a non-200 status the empty list is returned, otherwise the
decoded body. -/
def getScheduledPosts (f : FetchOutcome) : List PostRecord :=
  match f with
  | FetchOutcome.exn => []
  | FetchOutcome.resp status posts => if status ≠ 200 then [] else posts

/-- Model of the extraction loop of `_find_next_available_date` (lines
237-245): records whose date parses contribute their date, records that
raise `KeyError`/`ValueError` are skipped by the `continue`. -/
def extractScheduledDates (posts : List PostRecord) : List Nat :=
  posts.filterMap id

/-- Model of `_find_next_available_date` (bot.py lines 223-252): start
from tomorrow at 06:03:00.000000 Europe/London and advance past every
reserved date. -/
def findNextAvailableDate (now : LocalDT) (f : FetchOutcome) : LocalDT :=
  let check0 := replaceTime (addDays now 1) 6 3 0 0
  let scheduledDates := extractScheduledDates (getScheduledPosts f)
  findLoop scheduledDates check0

/-- The fixed app-store URL `self.qloga_app_url` (bot.py line 59). -/
def qlogaAppUrl : String :=
  "https://play.google.com/store/apps/details?id=eac.qloga.android"

/-- The text substituted for each match by `replace_func` (bot.py line
71): the uppercase brand name wrapped in a hyperlink to the app store. -/
def qlogaReplacement : List Char :=
  ("<a href=\"" ++ qlogaAppUrl ++ "\">QLOGA</a>").toList

/-- Model of `_format_qloga_mentions` (bot.py lines 64-73):
`re.sub(r'qloga', ..., flags=IGNORECASE)` scans the text left to right;
at each position a case-insensitive occurrence of the 5-character
pattern is consumed and replaced by `qlogaReplacement`, otherwise one
character is emitted unchanged. -/
def formatQlogaMentions : List Char → List Char
  | c1 :: c2 :: c3 :: c4 :: c5 :: cs =>
    if c1.toLower = 'q' ∧ c2.toLower = 'l' ∧ c3.toLower = 'o' ∧
        c4.toLower = 'g' ∧ c5.toLower = 'a' then
      qlogaReplacement ++ formatQlogaMentions cs
    else
      c1 :: formatQlogaMentions (c2 :: c3 :: c4 :: c5 :: cs)
  | c :: cs => c :: formatQlogaMentions cs
  | [] => []

/-- The three-character ellipsis appended by the truncation in
`generate_article` (bot.py lines 139 and 141). -/
def ellipsisChars : List Char :=
  ['.', '.', '.']

/-- Model of the title truncation of `generate_article` (bot.py lines
138-139). -/
def truncateTitle (t : List Char) : List Char :=
  if 60 < t.length then t.take 57 ++ ellipsisChars else t

/-- Model of the subtitle truncation of `generate_article` (bot.py
lines 140-141). -/
def truncateSubtitle (t : List Char) : List Char :=
  if 120 < t.length then t.take 117 ++ ellipsisChars else t

/-- A structured article as decoded from the model response in
`generate_article` (bot.py line 130). -/
structure Article where
  title : List Char
  subtitle : List Char
  content : List Char
  deriving Repr, DecidableEq

/-- Model of the post-processing of `generate_article` (bot.py lines
132-141): brand-mention formatting of title, subtitle and content,
followed by the length checks on the already-formatted title and
subtitle. -/
def generateArticlePost (a : Article) : Article :=
  let t := formatQlogaMentions a.title
  let s := formatQlogaMentions a.subtitle
  let c := formatQlogaMentions a.content
  { title := truncateTitle t, subtitle := truncateSubtitle s, content := c }

/-- Whether `pat` occurs verbatim at the head of `s`. -/
def startsWithSeq : List Char → List Char → Bool
  | [], _ => true
  | _ :: _, [] => false
  | p :: ps, c :: cs => p = c && startsWithSeq ps cs

/-- Whether `pat` occurs verbatim anywhere in `s`. -/
def containsSeq (pat : List Char) : List Char → Bool
  | [] => startsWithSeq pat []
  | c :: cs => startsWithSeq pat (c :: cs) || containsSeq pat cs

/-- Model of the schedule assignment in `publish_to_wordpress` (bot.py
lines 312-317): the created post is scheduled at the slot resolved from
the reservation snapshot fetched at publish time. -/
def scheduledPublicationDate (now : LocalDT) (fetchAtPublish : FetchOutcome) : LocalDT :=
  findNextAvailableDate now fetchAtPublish

/-- Model of the date put into the success message by `handle_topic`
(bot.py lines 369-375): after `publish_to_wordpress` returns, a second,
independent call of `_find_next_available_date` is made over the
reservation snapshot fetched at that later moment, and its result is
what the user is shown. -/
def reportedPublicationDate (now : LocalDT) (fetchAtReport : FetchOutcome) : LocalDT :=
  findNextAvailableDate now fetchAtReport

theorem remainingDates_decrease (scheduledDates : List Nat) (d : Nat)
    (h : d ∈ scheduledDates) :
    remainingDates scheduledDates (d + 1) < remainingDates scheduledDates d := by
  apply Finset.card_lt_card
  rw [Finset.ssubset_iff_of_subset]
  · refine ⟨d, ?_, ?_⟩
    · simp [List.mem_toFinset.mpr h]
    · simp
  · intro x hx
    simp only [Finset.mem_filter] at hx ⊢
    exact ⟨hx.1, Nat.le_of_succ_le hx.2⟩

theorem findLoop_day_not_mem (S : List Nat) (c : LocalDT) :
    dateOf (findLoop S c) ∉ S := by
  induction c using findLoop.induct S with
  | case1 c h ih =>
    rw [findLoop, if_pos h]
    exact ih
  | case2 c h =>
    rw [findLoop, if_neg h]
    exact h

theorem findLoop_day_ge (S : List Nat) (c : LocalDT) :
    c.day ≤ (findLoop S c).day := by
  induction c using findLoop.induct S with
  | case1 c h ih =>
    rw [findLoop, if_pos h]
    exact Nat.le_trans (Nat.le_succ c.day) ih
  | case2 c h =>
    rw [findLoop, if_neg h]

theorem findLoop_min (S : List Nat) (c : LocalDT) (d : Nat)
    (hle : c.day ≤ d) (hnm : d ∉ S) :
    (findLoop S c).day ≤ d := by
  induction c using findLoop.induct S with
  | case1 c h ih =>
    rw [findLoop, if_pos h]
    apply ih
    rcases Nat.lt_or_ge c.day d with hlt | hge
    · exact hlt
    · exact absurd h (by
        have : c.day = d := Nat.le_antisymm hle hge
        rw [dateOf, this]
        exact hnm)
  | case2 c h =>
    rw [findLoop, if_neg h]
    exact hle

theorem findLoop_time (S : List Nat) (c : LocalDT)
    (h6 : c.hour = 6 ∧ c.minute = 3 ∧ c.second = 0 ∧ c.micro = 0) :
    (findLoop S c).hour = 6 ∧ (findLoop S c).minute = 3 ∧
      (findLoop S c).second = 0 ∧ (findLoop S c).micro = 0 := by
  induction c using findLoop.induct S with
  | case1 c h ih =>
    rw [findLoop, if_pos h]
    exact ih ⟨rfl, rfl, rfl, rfl⟩
  | case2 c h =>
    rw [findLoop, if_neg h]
    exact h6

theorem findLoop_congr (S T : List Nat) (c : LocalDT)
    (hmem : ∀ d, d ∈ S ↔ d ∈ T) :
    findLoop S c = findLoop T c := by
  induction c using findLoop.induct S with
  | case1 c h ih =>
    rw [findLoop, if_pos h, ih]
    conv_rhs => rw [findLoop]
    rw [if_pos ((hmem (dateOf c)).mp h)]
  | case2 c h =>
    rw [findLoop, if_neg h]
    conv_rhs => rw [findLoop]
    rw [if_neg (fun hc => h ((hmem (dateOf c)).mpr hc))]

theorem findLoopCount_fst (S : List Nat) (c : LocalDT) :
    (findLoopCount S c).1 = findLoop S c := by
  induction c using findLoop.induct S with
  | case1 c h ih =>
    rw [findLoopCount, if_pos h, findLoop, if_pos h]
    simpa using ih
  | case2 c h =>
    rw [findLoopCount, if_neg h, findLoop, if_neg h]

theorem findLoopCount_le (S : List Nat) (c : LocalDT) :
    (findLoopCount S c).2 ≤ remainingDates S c.day + 1 := by
  induction c using findLoop.induct S with
  | case1 c h ih =>
    rw [findLoopCount, if_pos h]
    have hdec := remainingDates_decrease S c.day h
    have hrec : (findLoopCount S (replaceTime (addDays c 1) 6 3 0 0)).2 ≤
        remainingDates S (c.day + 1) + 1 := ih
    simp only [replaceTime, addDays] at hrec ⊢
    omega
  | case2 c h =>
    rw [findLoopCount, if_neg h]
    omega

theorem remainingDates_le_card (S : List Nat) (d : Nat) :
    remainingDates S d ≤ S.toFinset.card :=
  Finset.card_filter_le _ _

theorem findLoop_mem_trace (S : List Nat) (c : LocalDT) :
    findLoop S c ∈ findLoopTrace S c := by
  induction c using findLoop.induct S with
  | case1 c h ih =>
    rw [findLoop, if_pos h, findLoopTrace, if_pos h]
    exact List.mem_cons_of_mem _ ih
  | case2 c h =>
    rw [findLoop, if_neg h, findLoopTrace, if_neg h]
    exact List.mem_singleton.mpr rfl

theorem findLoopTrace_time (S : List Nat) (c : LocalDT)
    (h6 : c.hour = 6 ∧ c.minute = 3 ∧ c.second = 0 ∧ c.micro = 0) :
    ∀ x ∈ findLoopTrace S c,
      x.hour = 6 ∧ x.minute = 3 ∧ x.second = 0 ∧ x.micro = 0 := by
  induction c using findLoop.induct S with
  | case1 c h ih =>
    rw [findLoopTrace, if_pos h]
    intro x hx
    rcases List.mem_cons.mp hx with hx | hx
    · rw [hx]; exact h6
    · exact ih ⟨rfl, rfl, rfl, rfl⟩ x hx
  | case2 c h =>
    rw [findLoopTrace, if_neg h]
    intro x hx
    rw [List.mem_singleton.mp hx]
    exact h6

/-- C1: for every current time `now` and every reservation-fetch
outcome, the date of the slot returned by `findNextAvailableDate` is
not in the extracted reserved-date set, is strictly greater than
`date(now)`, is at least tomorrow, and is the minimum date ≥ tomorrow
outside the reserved set. -/
theorem c1_resolved_slot_minimal (now : LocalDT) (f : FetchOutcome) :
    dateOf (findNextAvailableDate now f) ∉
        extractScheduledDates (getScheduledPosts f) ∧
    dateOf now < dateOf (findNextAvailableDate now f) ∧
    now.day + 1 ≤ (findNextAvailableDate now f).day ∧
    ∀ d, now.day + 1 ≤ d → d ∉ extractScheduledDates (getScheduledPosts f) →
      (findNextAvailableDate now f).day ≤ d := by
  have hstart : (replaceTime (addDays now 1) 6 3 0 0).day = now.day + 1 := rfl
  have hge := findLoop_day_ge (extractScheduledDates (getScheduledPosts f))
      (replaceTime (addDays now 1) 6 3 0 0)
  rw [hstart] at hge
  refine ⟨findLoop_day_not_mem _ _, hge, hge, ?_⟩
  intro d hd hdn
  exact findLoop_min _ _ d (by rw [hstart]; exact hd) hdn

/-- Witness for C1: `now` is day 5 at 14:30, reservations hold days 6
and 8 plus one unparseable record, so the resolver must land on day 7. -/
theorem c1_resolved_slot_minimal_witness :
    dateOf ⟨5, 14, 30, 0, 0⟩ <
      dateOf (findNextAvailableDate ⟨5, 14, 30, 0, 0⟩
        (FetchOutcome.resp 200 [some 6, none, some 8])) ∧
    (findNextAvailableDate ⟨5, 14, 30, 0, 0⟩
        (FetchOutcome.resp 200 [some 6, none, some 8])).day ≤ 7 :=
  ⟨(c1_resolved_slot_minimal ⟨5, 14, 30, 0, 0⟩
      (FetchOutcome.resp 200 [some 6, none, some 8])).2.1,
   (c1_resolved_slot_minimal ⟨5, 14, 30, 0, 0⟩
      (FetchOutcome.resp 200 [some 6, none, some 8])).2.2.2 7 (by decide) (by decide)⟩

/-- C2: the collision-avoidance loop of `_find_next_available_date` is
a total function (it terminates on every input), it computes the
resolver's result, and the number of membership tests it performs is at
most the number of distinct reserved dates plus one. -/
theorem c2_loop_iteration_bound (now : LocalDT) (f : FetchOutcome) :
    (findLoopCount (extractScheduledDates (getScheduledPosts f))
        (replaceTime (addDays now 1) 6 3 0 0)).1 =
      findNextAvailableDate now f ∧
    (findLoopCount (extractScheduledDates (getScheduledPosts f))
        (replaceTime (addDays now 1) 6 3 0 0)).2 ≤
      (extractScheduledDates (getScheduledPosts f)).toFinset.card + 1 :=
  ⟨findLoopCount_fst _ _,
   Nat.le_trans (findLoopCount_le _ _)
     (Nat.add_le_add_right (remainingDates_le_card _ _) 1)⟩

/-- C3: with an empty reservation list the resolver returns exactly
tomorrow (date(now) + 1) at 06:03:00.000000, whatever the time of day
of `now` — in particular also late in the day. -/
theorem c3_empty_returns_tomorrow (now : LocalDT) :
    findNextAvailableDate now (FetchOutcome.resp 200 []) =
      ⟨now.day + 1, 6, 3, 0, 0⟩ := by
  show findLoop (extractScheduledDates (getScheduledPosts (FetchOutcome.resp 200 [])))
      (replaceTime (addDays now 1) 6 3 0 0) = ⟨now.day + 1, 6, 3, 0, 0⟩
  rw [findLoop]
  simp [extractScheduledDates, getScheduledPosts, dateOf, replaceTime, addDays]

/-- C4 counterexample: the brand formatter is not idempotent — applied
twice to "qloga" it gives a different result than applied once, because
the inserted hyperlink itself contains case-insensitive occurrences of
the brand token (`eac.qloga.android` in the URL and the uppercase link
text `QLOGA`), which a second pass replaces again. -/
theorem c4_idempotence_counterexample :
    formatQlogaMentions (formatQlogaMentions ("qloga".toList)) ≠
      formatQlogaMentions ("qloga".toList) := by
  decide

/-- C4 amended: the brand formatter is case-insensitive — "qloga",
"Qloga" and "QLOGA" all map to the identical uppercase hyperlinked
form — but it is not idempotent: a second application rewrites the
brand tokens contained in the hyperlink inserted by the first. -/
theorem c4_case_insensitive_not_idempotent :
    formatQlogaMentions ("qloga".toList) = qlogaReplacement ∧
    formatQlogaMentions ("Qloga".toList) = qlogaReplacement ∧
    formatQlogaMentions ("QLOGA".toList) = qlogaReplacement ∧
    formatQlogaMentions (formatQlogaMentions ("QLOGA".toList)) ≠
      formatQlogaMentions ("QLOGA".toList) := by
  decide

/-- C5: the length check of `generate_article` replaces a title longer
than 60 characters by its first 57 characters plus the three-character
ellipsis (total length exactly 60) and leaves titles of length ≤ 60
unchanged; the subtitle rule is the same with limits 120/117. -/
theorem c5_truncation_rule (s t : List Char) :
    (60 < s.length →
      truncateTitle s = s.take 57 ++ ellipsisChars ∧ (truncateTitle s).length = 60) ∧
    (s.length ≤ 60 → truncateTitle s = s) ∧
    (120 < t.length →
      truncateSubtitle t = t.take 117 ++ ellipsisChars ∧ (truncateSubtitle t).length = 120) ∧
    (t.length ≤ 120 → truncateSubtitle t = t) := by
  refine ⟨fun h => ⟨?_, ?_⟩, fun h => ?_, fun h => ⟨?_, ?_⟩, fun h => ?_⟩
  · rw [truncateTitle, if_pos h]
  · rw [truncateTitle, if_pos h]
    simp only [List.length_append, List.length_take, ellipsisChars,
      List.length_cons, List.length_nil]
    omega
  · rw [truncateTitle, if_neg (by omega)]
  · rw [truncateSubtitle, if_pos h]
  · rw [truncateSubtitle, if_pos h]
    simp only [List.length_append, List.length_take, ellipsisChars,
      List.length_cons, List.length_nil]
    omega
  · rw [truncateSubtitle, if_neg (by omega)]

/-- Witness for C5 at concrete titles of lengths 61, 60 and subtitles
of lengths 121, 120. -/
theorem c5_truncation_rule_witness :
    truncateTitle (List.replicate 61 'a') =
      (List.replicate 61 'a').take 57 ++ ellipsisChars ∧
    truncateTitle (List.replicate 60 'a') = List.replicate 60 'a' ∧
    truncateSubtitle (List.replicate 121 'b') =
      (List.replicate 121 'b').take 117 ++ ellipsisChars ∧
    truncateSubtitle (List.replicate 120 'b') = List.replicate 120 'b' :=
  ⟨((c5_truncation_rule (List.replicate 61 'a') (List.replicate 121 'b')).1 (by decide)).1,
   (c5_truncation_rule (List.replicate 60 'a') (List.replicate 121 'b')).2.1 (by decide),
   ((c5_truncation_rule (List.replicate 61 'a') (List.replicate 121 'b')).2.2.1 (by decide)).1,
   (c5_truncation_rule (List.replicate 61 'a') (List.replicate 120 'b')).2.2.2 (by decide)⟩

/-- C6: slot resolution never aborts on bad reservation input — an
exception and a non-200 status each make the resolver proceed exactly
as with an empty reservation list, a record with a missing or
unparseable date is skipped while the remaining records are still used,
and for every fetch outcome a slot strictly after `date(now)` is
returned. -/
theorem c6_error_tolerance (now : LocalDT) (status : Nat)
    (posts pre suf : List PostRecord) (f : FetchOutcome) :
    findNextAvailableDate now FetchOutcome.exn =
      findNextAvailableDate now (FetchOutcome.resp 200 []) ∧
    (status ≠ 200 →
      findNextAvailableDate now (FetchOutcome.resp status posts) =
        findNextAvailableDate now (FetchOutcome.resp 200 [])) ∧
    findNextAvailableDate now (FetchOutcome.resp 200 (pre ++ none :: suf)) =
      findNextAvailableDate now (FetchOutcome.resp 200 (pre ++ suf)) ∧
    dateOf now < dateOf (findNextAvailableDate now f) := by
  refine ⟨rfl, fun h => ?_, ?_, ?_⟩
  · simp [findNextAvailableDate, getScheduledPosts, h]
  · simp [findNextAvailableDate, getScheduledPosts, extractScheduledDates,
      List.filterMap_append]
  · have hge := findLoop_day_ge (extractScheduledDates (getScheduledPosts f))
        (replaceTime (addDays now 1) 6 3 0 0)
    exact Nat.lt_of_lt_of_le (Nat.lt_succ_self now.day) hge

/-- Witness for C6: a 404 status behaves like no reservations, and an
unparseable record among parseable ones is simply dropped. -/
theorem c6_error_tolerance_witness :
    findNextAvailableDate ⟨3, 12, 0, 0, 0⟩ (FetchOutcome.resp 404 [some 4]) =
      findNextAvailableDate ⟨3, 12, 0, 0, 0⟩ (FetchOutcome.resp 200 []) ∧
    findNextAvailableDate ⟨3, 12, 0, 0, 0⟩
        (FetchOutcome.resp 200 [some 4, none, some 6]) =
      findNextAvailableDate ⟨3, 12, 0, 0, 0⟩ (FetchOutcome.resp 200 [some 4, some 6]) :=
  ⟨(c6_error_tolerance ⟨3, 12, 0, 0, 0⟩ 404 [some 4] [some 4] [some 6]
      FetchOutcome.exn).2.1 (by decide),
   (c6_error_tolerance ⟨3, 12, 0, 0, 0⟩ 404 [some 4] [some 4] [some 6]
      FetchOutcome.exn).2.2.1⟩

/-- C7: the resolver's result depends only on set membership of the
reserved dates — two reservation lists holding the same set of dates,
duplicates and ordering ignored, give the same returned timestamp. -/
theorem c7_membership_only (now : LocalDT) (l1 l2 : List Nat)
    (hmem : ∀ d, d ∈ l1 ↔ d ∈ l2) :
    findNextAvailableDate now (FetchOutcome.resp 200 (l1.map some)) =
      findNextAvailableDate now (FetchOutcome.resp 200 (l2.map some)) := by
  have h1 : extractScheduledDates
      (getScheduledPosts (FetchOutcome.resp 200 (l1.map some))) = l1 := by
    simp [extractScheduledDates, getScheduledPosts]
  have h2 : extractScheduledDates
      (getScheduledPosts (FetchOutcome.resp 200 (l2.map some))) = l2 := by
    simp [extractScheduledDates, getScheduledPosts]
  show findLoop (extractScheduledDates
      (getScheduledPosts (FetchOutcome.resp 200 (l1.map some))))
      (replaceTime (addDays now 1) 6 3 0 0) =
    findLoop (extractScheduledDates
      (getScheduledPosts (FetchOutcome.resp 200 (l2.map some))))
      (replaceTime (addDays now 1) 6 3 0 0)
  rw [h1, h2]
  exact findLoop_congr l1 l2 _ hmem

/-- Witness for C7: the list [3, 2, 3] (with a duplicate, out of order)
and the list [2, 3] resolve to the same slot. -/
theorem c7_membership_only_witness :
    findNextAvailableDate ⟨0, 8, 0, 0, 0⟩
        (FetchOutcome.resp 200 ([3, 2, 3].map some)) =
      findNextAvailableDate ⟨0, 8, 0, 0, 0⟩
        (FetchOutcome.resp 200 ([2, 3].map some)) :=
  c7_membership_only ⟨0, 8, 0, 0, 0⟩ [3, 2, 3] [2, 3]
    (by intro d; simp; tauto)

/-- C8: the 60-character check of `generate_article` runs on the
brand-formatted title — the raw 5-character title "qloga" (well under
60) expands to an 83-character hyperlink, so the published title is
truncated to 57 characters plus the ellipsis, cutting the anchor
markup: the result still contains the opening `<a ` but no closing
`</a>`. -/
theorem c8_truncation_after_formatting :
    ("qloga".toList).length ≤ 60 ∧
    (formatQlogaMentions ("qloga".toList)).length = 83 ∧
    (generateArticlePost ⟨"qloga".toList, [], []⟩).title =
      (formatQlogaMentions ("qloga".toList)).take 57 ++ ellipsisChars ∧
    ((generateArticlePost ⟨"qloga".toList, [], []⟩).title).length = 60 ∧
    containsSeq ("<a ".toList) ((generateArticlePost ⟨"qloga".toList, [], []⟩).title) = true ∧
    containsSeq ("</a>".toList) ((generateArticlePost ⟨"qloga".toList, [], []⟩).title) = false := by
  decide

/-- C9: the success message's date comes from a second, independent
slot resolution performed after the post was created; whenever the date
the post was scheduled for appears in the re-fetched reservation list,
the reported date differs from the scheduled one. -/
theorem c9_reported_differs (now : LocalDT)
    (fetchAtPublish fetchAtReport : FetchOutcome)
    (h : dateOf (scheduledPublicationDate now fetchAtPublish) ∈
      extractScheduledDates (getScheduledPosts fetchAtReport)) :
    dateOf (reportedPublicationDate now fetchAtReport) ≠
      dateOf (scheduledPublicationDate now fetchAtPublish) := by
  intro heq
  have hmem : dateOf (reportedPublicationDate now fetchAtReport) ∈
      extractScheduledDates (getScheduledPosts fetchAtReport) := by
    rw [heq]; exact h
  exact findLoop_day_not_mem _ _ hmem

/-- Witness for C9: with no reservations at publish time the post is
scheduled for day 1; when the re-fetched list then contains day 1, the
reported date is a different one. -/
theorem c9_reported_differs_witness :
    dateOf (reportedPublicationDate ⟨0, 9, 0, 0, 0⟩
        (FetchOutcome.resp 200 [some 1])) ≠
      dateOf (scheduledPublicationDate ⟨0, 9, 0, 0, 0⟩
        (FetchOutcome.resp 200 [])) :=
  c9_reported_differs ⟨0, 9, 0, 0, 0⟩ (FetchOutcome.resp 200 [])
    (FetchOutcome.resp 200 [some 1])
    (by simp [scheduledPublicationDate, findNextAvailableDate, extractScheduledDates,
      getScheduledPosts, findLoop, dateOf, replaceTime, addDays])

/-- C10: every candidate timestamp the resolver examines, the returned
one included, carries exactly hour 6, minute 3, second 0, microsecond 0
in the reference timezone; the invariant is re-established after every
one-day advance. -/
theorem c10_fixed_time_invariant (now : LocalDT) (f : FetchOutcome) :
    (∀ x ∈ findLoopTrace (extractScheduledDates (getScheduledPosts f))
        (replaceTime (addDays now 1) 6 3 0 0),
      x.hour = 6 ∧ x.minute = 3 ∧ x.second = 0 ∧ x.micro = 0) ∧
    findNextAvailableDate now f ∈
      findLoopTrace (extractScheduledDates (getScheduledPosts f))
        (replaceTime (addDays now 1) 6 3 0 0) :=
  ⟨findLoopTrace_time _ _ ⟨rfl, rfl, rfl, rfl⟩, findLoop_mem_trace _ _⟩

/-- Witness for C10: the slot resolved from day 7 at 23:59:59 with day
8 reserved still carries the fixed 06:03:00.000000 time of day. -/
theorem c10_fixed_time_invariant_witness :
    (findNextAvailableDate ⟨7, 23, 59, 59, 0⟩ (FetchOutcome.resp 200 [some 8])).hour = 6 ∧
    (findNextAvailableDate ⟨7, 23, 59, 59, 0⟩ (FetchOutcome.resp 200 [some 8])).minute = 3 ∧
    (findNextAvailableDate ⟨7, 23, 59, 59, 0⟩ (FetchOutcome.resp 200 [some 8])).second = 0 ∧
    (findNextAvailableDate ⟨7, 23, 59, 59, 0⟩ (FetchOutcome.resp 200 [some 8])).micro = 0 :=
  (c10_fixed_time_invariant ⟨7, 23, 59, 59, 0⟩ (FetchOutcome.resp 200 [some 8])).1 _
    ((c10_fixed_time_invariant ⟨7, 23, 59, 59, 0⟩ (FetchOutcome.resp 200 [some 8])).2)
